/- Verification development for the GraceQ/MPS2 distributed two-site VMPS/TDVP engine.

The definitions below are shallow embeddings of the C++ sources:
  * include/gqmps2/algo_mpi/mps_algo_order.h
  * include/gqmps2/algo_mpi/vmps/two_site_update_noised_finite_vmps_mpi_impl.h
  * include/gqmps2/algo_mpi/vmps/two_site_update_finite_vmps_init.h
  * include/gqmps2/algo_mpi/tdvp/two_site_update_finite_tdvp_mpi_impl_slave.h
  * include/gqmps2/mpogen/mpogen_impl.h
C++ `double` values that are only stored and compared (noise magnitudes, singular
values, truncation budgets) are embedded as rationals; `size_t` loop variables are
embedded as `Nat` with explicit truncated subtraction matching the source's guards.
Stateful code is embedded as explicit state passing; disk and message traffic is
embedded as explicit event lists. -/
import Mathlib

namespace MPS2

/-- Orders broadcast from the master rank to every slave rank, in declaration
order of the C++ enum `MPS_AlGO_ORDER` (mps_algo_order.h). -/
inductive MPS_AlGO_ORDER where
  | program_start
  | init_grow_env
  | init_grow_env_grow
  | init_grow_env_finish
  | lanczos
  | svd
  | lanczos_mat_vec_dynamic
  | lanczos_mat_vec_static
  | lanczos_finish
  | contract_for_right_moving_expansion
  | contract_for_left_moving_expansion
  | growing_left_env
  | growing_right_env
  | program_final
  deriving DecidableEq, Repr

/-! ## Noise schedule of the master sweep loop (claim C1)

`MasterTwoSiteFiniteVMPS` first defaults an empty noise list, then runs
`for (size_t sweep = 1; sweep <= sweep_params.sweeps; ++sweep)` where the local
variable `noise` is reassigned only while `(sweep - 1) < noises.size()`. -/

/-- Noise-list defaulting performed by the master before the sweep loop:
`if (sweep_params.noises.empty()) { sweep_params.noises.push_back(0.0); }`
(two_site_update_noised_finite_vmps_mpi_impl.h, `MasterTwoSiteFiniteVMPS`). -/
def noisesAfterDefault (noises : List ℚ) : List ℚ :=
  if noises.isEmpty then [0] else noises

/-- Value of the master's local variable `noise` at the start of sweep number
`sweep` (1-based, exactly as the source loop counts), given the already
defaulted noise list.  The source reads
`if ((sweep - 1) < sweep_params.noises.size()) { noise = sweep_params.noises[sweep-1]; }`,
so the variable keeps its previous value when the index is out of range.
`none` embeds the C++ variable before its first assignment (it is declared
without an initializer). -/
def noiseForSweep (noises : List ℚ) : Nat → Option ℚ
  | 0 => none
  | s + 1 => if s < noises.length then noises[s]? else noiseForSweep noises s

theorem noisesAfterDefault_ne_nil (noises : List ℚ) : noisesAfterDefault noises ≠ [] := by
  unfold noisesAfterDefault
  split
  · simp
  · simpa [List.isEmpty_iff] using (by assumption : ¬noises.isEmpty = true)

theorem noiseForSweep_of_out_of_range (noises : List ℚ) (hne : noises ≠ [])
    (s : Nat) (hs : noises.length ≤ s) :
    noiseForSweep noises s = noises.getLast? := by
  induction s with
  | zero =>
    exact absurd (List.eq_nil_of_length_eq_zero (Nat.le_zero.mp hs)) hne
  | succ s ih =>
    by_cases h : s < noises.length
    · have hlen : noises.length = s + 1 := Nat.le_antisymm hs h
      simp only [noiseForSweep, if_pos h]
      rw [List.getLast?_eq_getElem?]
      congr 1
      omega
    · simp only [noiseForSweep, if_neg h]
      exact ih (Nat.le_of_not_lt h)

/-- C1 counterexample: configure a single noise value `5` and run sweep number 2.
The sweep index exceeds the noise-list length (`2 - 1 ≥ 1`), yet the noise value
applied to sweep 2 is `5`, the last configured noise value — the local variable
keeps its previous assignment — contradicting the claim that a sweep whose index
exceeds the noise-list length does not reuse the last configured noise value. -/
theorem C1_counterexample :
    (noisesAfterDefault [(5 : ℚ)]).length ≤ 2 - 1 ∧
      noiseForSweep (noisesAfterDefault [(5 : ℚ)]) 2 = some 5 := by
  constructor
  · simp [noisesAfterDefault]
  · simp [noisesAfterDefault, noiseForSweep]

/-- C1 (amended): an empty noise list is defaulted to the single entry `0`;
a sweep whose (1-based) index is within the noise-list range is assigned the
configured noise value at position `sweep - 1`; a sweep whose index exceeds the
noise-list length reuses the last configured noise value, because the local
variable `noise` keeps its most recent in-range assignment. -/
theorem C1_noise_schedule (noises : List ℚ) (sweep : Nat) (hs : 1 ≤ sweep) :
    noisesAfterDefault ([] : List ℚ) = [0] ∧
    (sweep - 1 < (noisesAfterDefault noises).length →
      noiseForSweep (noisesAfterDefault noises) sweep =
        (noisesAfterDefault noises)[sweep - 1]?) ∧
    ((noisesAfterDefault noises).length ≤ sweep - 1 →
      noiseForSweep (noisesAfterDefault noises) sweep =
        (noisesAfterDefault noises).getLast?) := by
  refine ⟨by simp [noisesAfterDefault], ?_, ?_⟩
  · intro hin
    obtain ⟨s, rfl⟩ : ∃ s, sweep = s + 1 := ⟨sweep - 1, by omega⟩
    simp only [Nat.add_sub_cancel] at hin ⊢
    simp only [noiseForSweep, if_pos hin]
  · intro hout
    obtain ⟨s, rfl⟩ : ∃ s, sweep = s + 1 := ⟨sweep - 1, by omega⟩
    simp only [Nat.add_sub_cancel] at hout
    have hle : (noisesAfterDefault noises).length ≤ s + 1 := Nat.le_succ_of_le hout
    exact noiseForSweep_of_out_of_range _ (noisesAfterDefault_ne_nil noises) _ hle

/-- Witness for the C1 amended theorem at the concrete input
`noises = []`, `sweep = 1`. -/
theorem C1_noise_schedule_witness :
    noisesAfterDefault ([] : List ℚ) = [0] ∧
    (1 - 1 < (noisesAfterDefault ([] : List ℚ)).length →
      noiseForSweep (noisesAfterDefault ([] : List ℚ)) 1 =
        (noisesAfterDefault ([] : List ℚ))[1 - 1]?) ∧
    ((noisesAfterDefault ([] : List ℚ)).length ≤ 1 - 1 →
      noiseForSweep (noisesAfterDefault ([] : List ℚ)) 1 =
        (noisesAfterDefault ([] : List ℚ)).getLast?) :=
  C1_noise_schedule [] 1 (by norm_num)

/-! ## Broadcast sequence of one bond update (claim C3)

`MasterTwoSiteFiniteVMPSUpdate` first dispatches on `dir` (any value outside
`{'r','l'}` hits `exit(1)`), then broadcasts `lanczos`, then — under
`if (fabs(noise)>=1e-10)` — exactly one directional expansion order, then `svd`,
then the directional environment-growing order. -/

/-- The numeric floor `1e-10` of the noise test in
`MasterTwoSiteFiniteVMPSUpdate`: `if (fabs(noise)>=1e-10)`. -/
def kNoiseFloor : ℚ := 1 / 10 ^ 10

/-- Sequence of orders broadcast by `MasterTwoSiteFiniteVMPSUpdate` during one
bond update, in source order: `lanczos`; the directional expansion order when
`fabs(noise) >= 1e-10`; `svd`; `growing_left_env` (right-moving) or
`growing_right_env` (left-moving).  `none` embeds the `exit(1)` taken for a
`dir` outside `{'r','l'}` before any order is broadcast. -/
def MasterTwoSiteFiniteVMPSUpdateOrders (dir : Char) (noise : ℚ) :
    Option (List MPS_AlGO_ORDER) :=
  if dir = 'r' ∨ dir = 'l' then
    some ([MPS_AlGO_ORDER.lanczos]
      ++ (if kNoiseFloor ≤ |noise| then
            [if dir = 'r' then MPS_AlGO_ORDER.contract_for_right_moving_expansion
             else MPS_AlGO_ORDER.contract_for_left_moving_expansion]
          else [])
      ++ [MPS_AlGO_ORDER.svd]
      ++ [if dir = 'r' then MPS_AlGO_ORDER.growing_left_env
          else MPS_AlGO_ORDER.growing_right_env])
  else none

/-- C3 counterexample: at `noise` equal to the floor `1e-10` itself, with
`dir = 'r'`, the master broadcasts the right-moving expansion order even though
the magnitude of the noise does not (strictly) exceed the floor — refuting the
claimed "if and only if the magnitude ... exceeds the 1e-10 floor". -/
theorem C3_counterexample :
    ¬ (|kNoiseFloor| > kNoiseFloor) ∧
      MasterTwoSiteFiniteVMPSUpdateOrders 'r' kNoiseFloor =
        some [MPS_AlGO_ORDER.lanczos,
              MPS_AlGO_ORDER.contract_for_right_moving_expansion,
              MPS_AlGO_ORDER.svd,
              MPS_AlGO_ORDER.growing_left_env] := by
  have habs : |kNoiseFloor| = kNoiseFloor := abs_of_pos (by norm_num [kNoiseFloor])
  constructor
  · rw [habs]
    exact lt_irrefl kNoiseFloor
  · rw [MasterTwoSiteFiniteVMPSUpdateOrders, if_pos (Or.inl rfl)]
    rw [habs, if_pos le_rfl]
    simp

/-- C3 (amended): in every bond update with `dir ∈ {'r','l'}` the master
broadcasts, in this fixed sequence: `lanczos`; then exactly one directional
expansion order if and only if the magnitude of the current noise value is at
least (`>=`, not strictly above) the `1e-10` floor; then `svd`; then
`growing_left_env` for `dir = 'r'` or `growing_right_env` for `dir = 'l'`;
and no other order. -/
theorem C3_update_order_sequence (dir : Char) (noise : ℚ)
    (hdir : dir = 'r' ∨ dir = 'l') :
    (dir = 'r' → kNoiseFloor ≤ |noise| →
      MasterTwoSiteFiniteVMPSUpdateOrders dir noise =
        some [MPS_AlGO_ORDER.lanczos,
              MPS_AlGO_ORDER.contract_for_right_moving_expansion,
              MPS_AlGO_ORDER.svd,
              MPS_AlGO_ORDER.growing_left_env]) ∧
    (dir = 'r' → ¬ kNoiseFloor ≤ |noise| →
      MasterTwoSiteFiniteVMPSUpdateOrders dir noise =
        some [MPS_AlGO_ORDER.lanczos,
              MPS_AlGO_ORDER.svd,
              MPS_AlGO_ORDER.growing_left_env]) ∧
    (dir = 'l' → kNoiseFloor ≤ |noise| →
      MasterTwoSiteFiniteVMPSUpdateOrders dir noise =
        some [MPS_AlGO_ORDER.lanczos,
              MPS_AlGO_ORDER.contract_for_left_moving_expansion,
              MPS_AlGO_ORDER.svd,
              MPS_AlGO_ORDER.growing_right_env]) ∧
    (dir = 'l' → ¬ kNoiseFloor ≤ |noise| →
      MasterTwoSiteFiniteVMPSUpdateOrders dir noise =
        some [MPS_AlGO_ORDER.lanczos,
              MPS_AlGO_ORDER.svd,
              MPS_AlGO_ORDER.growing_right_env]) := by
  refine ⟨?_, ?_, ?_, ?_⟩ <;> intro hd hn <;> subst hd <;>
    simp [MasterTwoSiteFiniteVMPSUpdateOrders, hn]

/-- Witness for the C3 amended theorem at the concrete input
`dir = 'r'`, `noise = 0`. -/
theorem C3_update_order_sequence_witness :
    ('r' = 'r' → kNoiseFloor ≤ |(0 : ℚ)| →
      MasterTwoSiteFiniteVMPSUpdateOrders 'r' 0 =
        some [MPS_AlGO_ORDER.lanczos,
              MPS_AlGO_ORDER.contract_for_right_moving_expansion,
              MPS_AlGO_ORDER.svd,
              MPS_AlGO_ORDER.growing_left_env]) ∧
    ('r' = 'r' → ¬ kNoiseFloor ≤ |(0 : ℚ)| →
      MasterTwoSiteFiniteVMPSUpdateOrders 'r' 0 =
        some [MPS_AlGO_ORDER.lanczos,
              MPS_AlGO_ORDER.svd,
              MPS_AlGO_ORDER.growing_left_env]) ∧
    ('r' = 'l' → kNoiseFloor ≤ |(0 : ℚ)| →
      MasterTwoSiteFiniteVMPSUpdateOrders 'r' 0 =
        some [MPS_AlGO_ORDER.lanczos,
              MPS_AlGO_ORDER.contract_for_left_moving_expansion,
              MPS_AlGO_ORDER.svd,
              MPS_AlGO_ORDER.growing_right_env]) ∧
    ('r' = 'l' → ¬ kNoiseFloor ≤ |(0 : ℚ)| →
      MasterTwoSiteFiniteVMPSUpdateOrders 'r' 0 =
        some [MPS_AlGO_ORDER.lanczos,
              MPS_AlGO_ORDER.svd,
              MPS_AlGO_ORDER.growing_right_env]) :=
  C3_update_order_sequence 'r' 0 (Or.inl rfl)

/-! ## The sweep loops and the whole master run (claim C4)

`TwoSiteFiniteVMPSSweep` runs
`for (size_t i = left_boundary; i <= right_boundary - 2; ++i)` updating with
`dir = 'r'`, then `for (size_t i = right_boundary; i >= left_boundary+2; --i)`
updating with `dir = 'l'`.  `MasterTwoSiteFiniteVMPS` broadcasts
`program_start`, runs the configured number of sweeps, and finally broadcasts
`program_final`. -/

/-- Targets of the right-moving loop of `TwoSiteFiniteVMPSSweep`, started at
`i` (the source starts it at `left_boundary`): updates with `dir = 'r'` while
`i <= right_boundary - 2`. -/
def rightSweepUpdates (right_boundary : Nat) (i : Nat) : List (Char × Nat) :=
  if i ≤ right_boundary - 2 then ('r', i) :: rightSweepUpdates right_boundary (i + 1)
  else []
termination_by right_boundary - 2 + 1 - i
decreasing_by omega

/-- Targets of the left-moving loop of `TwoSiteFiniteVMPSSweep`, started at
`i` (the source starts it at `right_boundary`): updates with `dir = 'l'` while
`i >= left_boundary + 2`, decrementing. -/
def leftSweepUpdates (left_boundary : Nat) (i : Nat) : List (Char × Nat) :=
  if left_boundary + 2 ≤ i then ('l', i) :: leftSweepUpdates left_boundary (i - 1)
  else []
termination_by i
decreasing_by omega

/-- The sequence of `(dir, target_site)` bond updates performed by one call of
`TwoSiteFiniteVMPSSweep`: the right-moving loop followed by the left-moving
loop. -/
def TwoSiteFiniteVMPSSweepUpdates (left_boundary right_boundary : Nat) :
    List (Char × Nat) :=
  rightSweepUpdates right_boundary left_boundary
    ++ leftSweepUpdates left_boundary right_boundary

/-- MPS site tensors written by one bond update with the given noise value:
when `fabs(noise) >= 1e-10` triggers subspace expansion, the expansion step
rewrites the next-next-site tensor (`MasterTwoSiteFiniteVMPSRightMovingExpand`
replaces `mps(target_site + 2)`, `MasterTwoSiteFiniteVMPSLeftMovingExpand`
replaces `mps(target_site - 2)`); afterwards the SVD split writes the
`lsite_idx`/`rsite_idx` pair from the `switch (dir)` of
`MasterTwoSiteFiniteVMPSUpdate` (`'r'`: `target_site`, `target_site + 1`;
`'l'`: `target_site - 1`, `target_site`). -/
def updateSites (noise : ℚ) : Char × Nat → List Nat
  | ('r', t) =>
    if kNoiseFloor ≤ |noise| then [t + 2, t, t + 1] else [t, t + 1]
  | ('l', t) =>
    if kNoiseFloor ≤ |noise| then [t - 2, t - 1, t] else [t - 1, t]
  | _ => []

/-- Orders broadcast during one call of `TwoSiteFiniteVMPSSweep`: the
concatenation of the per-update broadcast sequences, one per bond update. -/
def TwoSiteFiniteVMPSSweepOrders (left_boundary right_boundary : Nat) (noise : ℚ) :
    List MPS_AlGO_ORDER :=
  (TwoSiteFiniteVMPSSweepUpdates left_boundary right_boundary).flatMap
    (fun du => (MasterTwoSiteFiniteVMPSUpdateOrders du.1 noise).getD [])

/-- Orders broadcast by the first `sweeps` iterations of the master sweep loop,
threading the local `noise` variable exactly as `MasterTwoSiteFiniteVMPS` does
(the noise list is assumed already defaulted). -/
def MasterTwoSiteFiniteVMPSSweepsOrders (noises : List ℚ)
    (left_boundary right_boundary : Nat) : Nat → List MPS_AlGO_ORDER
  | 0 => []
  | s + 1 => MasterTwoSiteFiniteVMPSSweepsOrders noises left_boundary right_boundary s
      ++ TwoSiteFiniteVMPSSweepOrders left_boundary right_boundary
          ((noiseForSweep noises (s + 1)).getD 0)

/-- The whole sequence of orders broadcast by one run of
`MasterTwoSiteFiniteVMPS`: `program_start`, the sweep-loop orders, and
`program_final`.  The boundary/environment initialization between
`program_start` and the first sweep broadcasts no orders in the master sources
(`TwoSiteFiniteVMPSInit`, two_site_update_finite_vmps_init.h). -/
def MasterTwoSiteFiniteVMPSOrders (sweeps : Nat) (noises : List ℚ)
    (left_boundary right_boundary : Nat) : List MPS_AlGO_ORDER :=
  MPS_AlGO_ORDER.program_start ::
    (MasterTwoSiteFiniteVMPSSweepsOrders (noisesAfterDefault noises)
        left_boundary right_boundary sweeps
      ++ [MPS_AlGO_ORDER.program_final])

theorem rightSweepUpdates_eq_range (right_boundary : Nat)
    (hrb : 2 ≤ right_boundary) :
    ∀ i, rightSweepUpdates right_boundary i =
      (List.range' i (right_boundary - 1 - i)).map (fun j => ('r', j)) := by
  have key : ∀ n i, right_boundary - 2 + 1 - i ≤ n →
      rightSweepUpdates right_boundary i =
        (List.range' i (right_boundary - 1 - i)).map (fun j => ('r', j)) := by
    intro n
    induction n with
    | zero =>
      intro i hi
      rw [rightSweepUpdates]
      have h1 : ¬ i ≤ right_boundary - 2 := by omega
      have h2 : right_boundary - 1 - i = 0 := by omega
      simp [h1, h2]
    | succ n ih =>
      intro i hi
      rw [rightSweepUpdates]
      by_cases h : i ≤ right_boundary - 2
      · have h2 : right_boundary - 1 - i = (right_boundary - 1 - (i + 1)) + 1 := by
          omega
        rw [if_pos h, ih (i + 1) (by omega), h2, List.range'_succ]
        simp
      · have h2 : right_boundary - 1 - i = 0 := by omega
        simp [h, h2]
  intro i
  exact key _ i le_rfl

theorem leftSweepUpdates_eq_range (left_boundary : Nat) :
    ∀ i, leftSweepUpdates left_boundary i =
      ((List.range' (left_boundary + 2) (i - (left_boundary + 1))).map
        (fun j => ('l', j))).reverse := by
  intro i
  induction i using Nat.strong_induction_on with
  | _ i ih =>
    rw [leftSweepUpdates]
    by_cases h : left_boundary + 2 ≤ i
    · have h2 : i - (left_boundary + 1) = (i - 1 - (left_boundary + 1)) + 1 := by omega
      have h3 : left_boundary + 2 + (i - 1 - (left_boundary + 1)) = i := by omega
      rw [if_pos h, ih (i - 1) (by omega), h2, List.range'_1_concat, h3]
      simp
    · have h2 : i - (left_boundary + 1) = 0 := by omega
      simp [h, h2]

/-- C4: in every run of `MasterTwoSiteFiniteVMPS` with boundaries satisfying
`left_boundary + 2 ≤ right_boundary`, the first order broadcast is
`program_start` and the last is `program_final`; each sweep performs the
right-moving bond updates at target sites `left_boundary, ...,
right_boundary - 2` in ascending order followed by the left-moving bond updates
at target sites `right_boundary, ..., left_boundary + 2` in descending order
(the closed form below lists them explicitly), and every MPS site tensor
written by any update — the SVD-split pair and, whatever the sweep's noise
value, the next-next-site tensor rewritten by a triggered subspace expansion —
lies inside `[left_boundary, right_boundary]`. -/
theorem C4_master_run_structure (sweeps : Nat) (noises : List ℚ)
    (left_boundary right_boundary : Nat)
    (hb : left_boundary + 2 ≤ right_boundary) :
    (MasterTwoSiteFiniteVMPSOrders sweeps noises left_boundary
        right_boundary).head? = some MPS_AlGO_ORDER.program_start ∧
    (MasterTwoSiteFiniteVMPSOrders sweeps noises left_boundary
        right_boundary).getLast? = some MPS_AlGO_ORDER.program_final ∧
    TwoSiteFiniteVMPSSweepUpdates left_boundary right_boundary =
      (List.range' left_boundary (right_boundary - 1 - left_boundary)).map
          (fun j => ('r', j))
        ++ ((List.range' (left_boundary + 2)
              (right_boundary - (left_boundary + 1))).map
            (fun j => ('l', j))).reverse ∧
    (∀ i, ('r', i) ∈ TwoSiteFiniteVMPSSweepUpdates left_boundary right_boundary ↔
      left_boundary ≤ i ∧ i ≤ right_boundary - 2) ∧
    (∀ i, ('l', i) ∈ TwoSiteFiniteVMPSSweepUpdates left_boundary right_boundary ↔
      left_boundary + 2 ≤ i ∧ i ≤ right_boundary) ∧
    (∀ noise : ℚ, ∀ u ∈ TwoSiteFiniteVMPSSweepUpdates left_boundary right_boundary,
      ∀ s ∈ updateSites noise u, left_boundary ≤ s ∧ s ≤ right_boundary) := by
  have hclosed : TwoSiteFiniteVMPSSweepUpdates left_boundary right_boundary =
      (List.range' left_boundary (right_boundary - 1 - left_boundary)).map
          (fun j => ('r', j))
        ++ ((List.range' (left_boundary + 2)
              (right_boundary - (left_boundary + 1))).map
            (fun j => ('l', j))).reverse := by
    rw [TwoSiteFiniteVMPSSweepUpdates,
      rightSweepUpdates_eq_range right_boundary (by omega),
      leftSweepUpdates_eq_range]
  have hmemr : ∀ i, ('r', i) ∈
      TwoSiteFiniteVMPSSweepUpdates left_boundary right_boundary ↔
      left_boundary ≤ i ∧ i ≤ right_boundary - 2 := by
    intro i
    rw [hclosed]
    simp [List.mem_range'_1]
    omega
  have hmeml : ∀ i, ('l', i) ∈
      TwoSiteFiniteVMPSSweepUpdates left_boundary right_boundary ↔
      left_boundary + 2 ≤ i ∧ i ≤ right_boundary := by
    intro i
    rw [hclosed]
    simp [List.mem_range'_1]
    omega
  refine ⟨rfl, ?_, hclosed, hmemr, hmeml, ?_⟩
  · rw [MasterTwoSiteFiniteVMPSOrders, ← List.cons_append]
    exact List.getLast?_concat _
  · intro noise u hu s hs
    have hu' := hu
    rw [hclosed] at hu'
    simp only [List.mem_append, List.mem_reverse, List.mem_map] at hu'
    rcases hu' with ⟨j, _, rfl⟩ | ⟨j, _, rfl⟩
    · have hj := (hmemr j).mp hu
      by_cases hn : kNoiseFloor ≤ |noise|
      · simp only [updateSites, if_pos hn, List.mem_cons, List.not_mem_nil,
          or_false] at hs
        rcases hs with rfl | rfl | rfl <;> omega
      · simp only [updateSites, if_neg hn, List.mem_cons, List.not_mem_nil,
          or_false] at hs
        rcases hs with rfl | rfl <;> omega
    · have hj := (hmeml j).mp hu
      by_cases hn : kNoiseFloor ≤ |noise|
      · simp only [updateSites, if_pos hn, List.mem_cons, List.not_mem_nil,
          or_false] at hs
        rcases hs with rfl | rfl | rfl <;> omega
      · simp only [updateSites, if_neg hn, List.mem_cons, List.not_mem_nil,
          or_false] at hs
        rcases hs with rfl | rfl <;> omega

/-- Witness for the C4 theorem at the concrete input `sweeps = 1`,
`noises = []`, `left_boundary = 1`, `right_boundary = 4`. -/
theorem C4_master_run_structure_witness :
    1 + 2 ≤ 4 ∧
      (MasterTwoSiteFiniteVMPSOrders 1 [] 1 4).head? =
        some MPS_AlGO_ORDER.program_start ∧
      (MasterTwoSiteFiniteVMPSOrders 1 [] 1 4).getLast? =
        some MPS_AlGO_ORDER.program_final :=
  ⟨by norm_num,
    (C4_master_run_structure 1 [] 1 4 (by norm_num)).1,
    (C4_master_run_structure 1 [] 1 4 (by norm_num)).2.1⟩

/-! ## Disk traffic of the tensor-loading helpers (claim C2)

`LoadRelatedTensOnTwoSiteAlgWhenRightMoving` and
`LoadRelatedTensOnTwoSiteAlgWhenLeftMoving` load the MPS tensor entering the
window and the needed environment tensor(s); the embedding records their
`LoadTen`/`RemoveFile` calls as an event list in source order. -/

/-- Side tag of an environment-tensor file: `GenEnvTenName("l", len, ...)` or
`GenEnvTenName("r", len, ...)`. -/
inductive EnvSide where
  | l
  | r
  deriving DecidableEq, Repr

/-- One disk/memory event performed by the loading helpers. -/
inductive DiskOp where
  | loadMpsTen (site : Nat)
  | loadEnvTen (side : EnvSide) (len : Nat)
  | removeEnvFile (side : EnvSide) (len : Nat)
  deriving DecidableEq, Repr

/-- Event list of `LoadRelatedTensOnTwoSiteAlgWhenRightMoving` (target site
`target_site`, `N = mps.size()`): the non-boundary branch loads MPS tensor
`target_site + 2` and the right environment of length `N - (target_site + 2)`
and removes that file; the boundary branch (`target_site == left_boundary`)
additionally loads the left environment of length `target_site` without
removing its file. -/
def LoadRelatedTensOnTwoSiteAlgWhenRightMoving
    (N target_site left_boundary : Nat) : List DiskOp :=
  if target_site ≠ left_boundary then
    [DiskOp.loadMpsTen (target_site + 2),
     DiskOp.loadEnvTen EnvSide.r (N - (target_site + 2)),
     DiskOp.removeEnvFile EnvSide.r (N - (target_site + 2))]
  else
    [DiskOp.loadMpsTen (target_site + 2),
     DiskOp.loadEnvTen EnvSide.r ((N - 1) - (target_site + 1)),
     DiskOp.removeEnvFile EnvSide.r ((N - 1) - (target_site + 1)),
     DiskOp.loadEnvTen EnvSide.l target_site]

/-- Event list of `LoadRelatedTensOnTwoSiteAlgWhenLeftMoving` (target site
`target_site`, `N = mps.size()`): the non-boundary branch loads MPS tensor
`target_site - 2` and the left environment of length `(target_site + 1) - 2`
and removes that file; the boundary branch (`target_site == right_boundary`)
loads the right environment of length `(N - 1) - target_site` without removing
its file, and removes the left-environment file of length `target_site - 1`
without loading it. -/
def LoadRelatedTensOnTwoSiteAlgWhenLeftMoving
    (N target_site right_boundary : Nat) : List DiskOp :=
  if target_site ≠ right_boundary then
    [DiskOp.loadMpsTen (target_site - 2),
     DiskOp.loadEnvTen EnvSide.l ((target_site + 1) - 2),
     DiskOp.removeEnvFile EnvSide.l ((target_site + 1) - 2)]
  else
    [DiskOp.loadMpsTen (target_site - 2),
     DiskOp.loadEnvTen EnvSide.r ((N - 1) - target_site),
     DiskOp.removeEnvFile EnvSide.l (target_site - 1)]

/-- Every environment-tensor file loaded in `ops` is removed from disk by the
event immediately following its load. -/
def envLoadsImmediatelyRemoved (ops : List DiskOp) : Prop :=
  ∀ i s n, ops[i]? = some (DiskOp.loadEnvTen s n) →
    ops[i + 1]? = some (DiskOp.removeEnvFile s n)

/-- C2 counterexample: right-moving at the boundary branch
(`target_site = left_boundary = 2`, `N = 10`): the left-environment file of
length 2 is loaded as the last event and never removed, so not every loaded
environment file is removed immediately after it is loaded. -/
theorem C2_counterexample :
    ¬ envLoadsImmediatelyRemoved
        (LoadRelatedTensOnTwoSiteAlgWhenRightMoving 10 2 2) := by
  intro h
  have h3 := h 3 EnvSide.l 2 (by simp [LoadRelatedTensOnTwoSiteAlgWhenRightMoving])
  simp [LoadRelatedTensOnTwoSiteAlgWhenRightMoving] at h3

/-- C2 (amended): in the non-boundary branches every loaded environment file is
removed from disk immediately after it is loaded; in the right-moving boundary
branch the loaded right-environment file is removed immediately but the loaded
left-environment file of length `target_site` stays on disk; in the left-moving
boundary branch the loaded right-environment file of length
`(N - 1) - target_site` is never removed, while the left-environment file of
length `target_site - 1` is removed without ever being loaded. -/
theorem C2_env_file_consumption (N target_site left_boundary right_boundary : Nat) :
    (target_site ≠ left_boundary →
      envLoadsImmediatelyRemoved
        (LoadRelatedTensOnTwoSiteAlgWhenRightMoving N target_site left_boundary)) ∧
    (target_site = left_boundary →
      (LoadRelatedTensOnTwoSiteAlgWhenRightMoving N target_site left_boundary)[2]? =
          some (DiskOp.removeEnvFile EnvSide.r ((N - 1) - (target_site + 1))) ∧
      DiskOp.loadEnvTen EnvSide.l target_site ∈
        LoadRelatedTensOnTwoSiteAlgWhenRightMoving N target_site left_boundary ∧
      ∀ n, DiskOp.removeEnvFile EnvSide.l n ∉
        LoadRelatedTensOnTwoSiteAlgWhenRightMoving N target_site left_boundary) ∧
    (target_site ≠ right_boundary →
      envLoadsImmediatelyRemoved
        (LoadRelatedTensOnTwoSiteAlgWhenLeftMoving N target_site right_boundary)) ∧
    (target_site = right_boundary →
      DiskOp.loadEnvTen EnvSide.r ((N - 1) - target_site) ∈
        LoadRelatedTensOnTwoSiteAlgWhenLeftMoving N target_site right_boundary ∧
      (∀ n, DiskOp.removeEnvFile EnvSide.r n ∉
        LoadRelatedTensOnTwoSiteAlgWhenLeftMoving N target_site right_boundary) ∧
      DiskOp.removeEnvFile EnvSide.l (target_site - 1) ∈
        LoadRelatedTensOnTwoSiteAlgWhenLeftMoving N target_site right_boundary ∧
      ∀ n, DiskOp.loadEnvTen EnvSide.l n ∉
        LoadRelatedTensOnTwoSiteAlgWhenLeftMoving N target_site right_boundary) := by
  refine ⟨?_, ?_, ?_, ?_⟩
  · intro hne
    intro i s n h
    rw [LoadRelatedTensOnTwoSiteAlgWhenRightMoving, if_pos hne] at h ⊢
    rcases i with _ | _ | _ | i <;> simp_all
  · intro heq
    rw [LoadRelatedTensOnTwoSiteAlgWhenRightMoving, if_neg (by simp [heq])]
    refine ⟨by simp, by simp, ?_⟩
    intro n
    simp
  · intro hne
    intro i s n h
    rw [LoadRelatedTensOnTwoSiteAlgWhenLeftMoving, if_pos hne] at h ⊢
    rcases i with _ | _ | _ | i <;> simp_all
  · intro heq
    rw [LoadRelatedTensOnTwoSiteAlgWhenLeftMoving, if_neg (by simp [heq])]
    refine ⟨by simp, ?_, by simp, ?_⟩ <;> intro n <;> simp

/-- Witness for the C2 amended theorem at the concrete input `N = 10`,
`target_site = 3`, `left_boundary = 2`, `right_boundary = 7` (instantiating the
two non-boundary implications and leaving the boundary implications vacuous). -/
theorem C2_env_file_consumption_witness :
    (3 ≠ 2 →
      envLoadsImmediatelyRemoved
        (LoadRelatedTensOnTwoSiteAlgWhenRightMoving 10 3 2)) ∧
    (3 = 2 →
      (LoadRelatedTensOnTwoSiteAlgWhenRightMoving 10 3 2)[2]? =
          some (DiskOp.removeEnvFile EnvSide.r ((10 - 1) - (3 + 1))) ∧
      DiskOp.loadEnvTen EnvSide.l 3 ∈
        LoadRelatedTensOnTwoSiteAlgWhenRightMoving 10 3 2 ∧
      ∀ n, DiskOp.removeEnvFile EnvSide.l n ∉
        LoadRelatedTensOnTwoSiteAlgWhenRightMoving 10 3 2) ∧
    (3 ≠ 7 →
      envLoadsImmediatelyRemoved
        (LoadRelatedTensOnTwoSiteAlgWhenLeftMoving 10 3 7)) ∧
    (3 = 7 →
      DiskOp.loadEnvTen EnvSide.r ((10 - 1) - 3) ∈
        LoadRelatedTensOnTwoSiteAlgWhenLeftMoving 10 3 7 ∧
      (∀ n, DiskOp.removeEnvFile EnvSide.r n ∉
        LoadRelatedTensOnTwoSiteAlgWhenLeftMoving 10 3 7) ∧
      DiskOp.removeEnvFile EnvSide.l (3 - 1) ∈
        LoadRelatedTensOnTwoSiteAlgWhenLeftMoving 10 3 7 ∧
      ∀ n, DiskOp.loadEnvTen EnvSide.l n ∉
        LoadRelatedTensOnTwoSiteAlgWhenLeftMoving 10 3 7) :=
  C2_env_file_consumption 10 3 2 7

/-! ## Truncation policy of the distributed SVD (claim C5)

`MPISVDMaster` is called by `MasterTwoSiteFiniteVMPSUpdate` with
`sweep_params.trunc_err`, `sweep_params.Dmin`, `sweep_params.Dmax` and reports
`actual_trunc_err` and the kept dimension `D`; its implementation lives in the
external block-sparse tensor library, not in this repository's sources, so the
truncation policy below is modelled from the spec. -/

/-- Truncation error of keeping the first `k` of the (descending-sorted)
singular values `s`: the sum of squares of the discarded ones. -/
def truncErrOfKeep (s : List ℚ) (k : Nat) : ℚ :=
  ((s.drop k).map (fun x => x * x)).sum

/-- Helper scanning upward from `k` with the given fuel for the first kept
dimension whose truncation error is within the budget. -/
def minKeepFrom (s : List ℚ) (trunc_err : ℚ) : Nat → Nat → Nat
  | 0, k => k
  | fuel + 1, k =>
    if truncErrOfKeep s k ≤ trunc_err then k else minKeepFrom s trunc_err fuel (k + 1)

/-- Smallest number of kept singular values meeting the truncation-error
budget (discarding smallest values first means keeping a prefix of the
descending-sorted list). -/
def minKeepMeetingBudget (s : List ℚ) (trunc_err : ℚ) : Nat :=
  minKeepFrom s trunc_err (s.length + 1) 0

/-- Modelled from the spec: the kept bond dimension of the distributed
truncated SVD `MPISVDMaster` (implemented in the external tensor library and
absent from this repository's sources): "discards the smallest singular values
first, subject to: never drop below `Dmin` singular values even if error budget
is exceeded; never keep more than `Dmax`". -/
def MPISVDMasterKeptDim (s : List ℚ) (trunc_err : ℚ) (Dmin Dmax : Nat) : Nat :=
  min Dmax (max Dmin (minKeepMeetingBudget s trunc_err))

theorem sumsq_drop_le (m : Nat) :
    ∀ l : List ℚ, ((l.drop m).map (fun x => x * x)).sum ≤
      (l.map (fun x => x * x)).sum := by
  induction m with
  | zero => intro l; simp
  | succ m ih =>
    intro l
    cases l with
    | nil => simp
    | cons x t =>
      simp only [List.drop_succ_cons, List.map_cons, List.sum_cons]
      calc ((t.drop m).map (fun x => x * x)).sum ≤ (t.map (fun x => x * x)).sum := ih t
        _ ≤ x * x + (t.map (fun x => x * x)).sum :=
          le_add_of_nonneg_left (mul_self_nonneg x)

theorem truncErrOfKeep_anti (s : List ℚ) {k k' : Nat} (h : k ≤ k') :
    truncErrOfKeep s k' ≤ truncErrOfKeep s k := by
  unfold truncErrOfKeep
  have hdrop : s.drop k' = (s.drop k).drop (k' - k) := by
    rw [List.drop_drop]
    congr 1
    omega
  rw [hdrop]
  exact sumsq_drop_le (k' - k) (s.drop k)

theorem minKeepFrom_le (s : List ℚ) (trunc_err : ℚ) :
    ∀ fuel k j, k ≤ j → truncErrOfKeep s j ≤ trunc_err →
      minKeepFrom s trunc_err fuel k ≤ j := by
  intro fuel
  induction fuel with
  | zero => intro k j hkj _; exact hkj
  | succ fuel ih =>
    intro k j hkj hj
    rw [minKeepFrom]
    split
    · exact hkj
    · have hne : k ≠ j := by
        rintro rfl
        exact absurd hj (by assumption)
      exact ih (k + 1) j (by omega) hj

theorem truncErr_minKeepFrom_le (s : List ℚ) (trunc_err : ℚ) :
    ∀ fuel k, (∃ j, k ≤ j ∧ j ≤ k + fuel ∧ truncErrOfKeep s j ≤ trunc_err) →
      truncErrOfKeep s (minKeepFrom s trunc_err fuel k) ≤ trunc_err := by
  intro fuel
  induction fuel with
  | zero =>
    rintro k ⟨j, hkj, hjk, hj⟩
    rw [minKeepFrom]
    have : j = k := by omega
    exact this ▸ hj
  | succ fuel ih =>
    rintro k ⟨j, hkj, hjk, hj⟩
    rw [minKeepFrom]
    split
    · assumption
    · refine ih (k + 1) ⟨j, ?_, by omega, hj⟩
      have hne : k ≠ j := by
        rintro rfl
        exact absurd hj (by assumption)
      omega

theorem truncErr_minKeepMeetingBudget_le (s : List ℚ) (trunc_err : ℚ)
    (hb : 0 ≤ trunc_err) :
    truncErrOfKeep s (minKeepMeetingBudget s trunc_err) ≤ trunc_err := by
  refine truncErr_minKeepFrom_le s trunc_err (s.length + 1) 0
    ⟨s.length, Nat.zero_le _, by omega, ?_⟩
  simp [truncErrOfKeep, List.drop_length, hb]

/-- C5: for every truncation configuration with `Dmin ≤ Dmax` and a nonnegative
error budget, the kept dimension `D` of the (spec-modelled) distributed
truncated SVD satisfies `Dmin ≤ D ≤ Dmax`; the actual truncation error is
within the budget whenever keeping some `D > Dmin` (within the `Dmax` cap) was
sufficient to meet it; and the error may exceed the budget only when no
admissible choice above the `Dmin` floor meets it. -/
theorem C5_svd_truncation (s : List ℚ) (trunc_err : ℚ) (Dmin Dmax : Nat)
    (_hsorted : s.Sorted (fun a b => b ≤ a)) (hD : Dmin ≤ Dmax)
    (hb : 0 ≤ trunc_err) :
    Dmin ≤ MPISVDMasterKeptDim s trunc_err Dmin Dmax ∧
    MPISVDMasterKeptDim s trunc_err Dmin Dmax ≤ Dmax ∧
    ((∃ k, Dmin < k ∧ k ≤ Dmax ∧ truncErrOfKeep s k ≤ trunc_err) →
      truncErrOfKeep s (MPISVDMasterKeptDim s trunc_err Dmin Dmax) ≤ trunc_err) ∧
    (trunc_err < truncErrOfKeep s (MPISVDMasterKeptDim s trunc_err Dmin Dmax) →
      ∀ k, Dmin < k → k ≤ Dmax → trunc_err < truncErrOfKeep s k) := by
  have hmain : (∃ k, Dmin < k ∧ k ≤ Dmax ∧ truncErrOfKeep s k ≤ trunc_err) →
      truncErrOfKeep s (MPISVDMasterKeptDim s trunc_err Dmin Dmax) ≤ trunc_err := by
    rintro ⟨k, _, hkD, hk⟩
    have hm : minKeepMeetingBudget s trunc_err ≤ k :=
      minKeepFrom_le s trunc_err (s.length + 1) 0 k (Nat.zero_le k) hk
    have hDge : minKeepMeetingBudget s trunc_err ≤
        MPISVDMasterKeptDim s trunc_err Dmin Dmax := by
      unfold MPISVDMasterKeptDim
      exact le_min (le_trans hm hkD) (le_max_right _ _)
    calc truncErrOfKeep s (MPISVDMasterKeptDim s trunc_err Dmin Dmax)
        ≤ truncErrOfKeep s (minKeepMeetingBudget s trunc_err) :=
          truncErrOfKeep_anti s hDge
      _ ≤ trunc_err := truncErr_minKeepMeetingBudget_le s trunc_err hb
  refine ⟨?_, ?_, hmain, ?_⟩
  · exact le_min hD (le_max_left _ _)
  · exact min_le_left _ _
  · intro hgt k hk1 hk2
    by_contra hle
    push_neg at hle
    exact absurd (hmain ⟨k, hk1, hk2, hle⟩) (not_le.mpr hgt)

/-- Witness for the C5 theorem at the concrete input `s = [3, 1]`,
`trunc_err = 2`, `Dmin = 1`, `Dmax = 2`. -/
theorem C5_svd_truncation_witness :
    1 ≤ MPISVDMasterKeptDim [3, 1] 2 1 2 ∧
    MPISVDMasterKeptDim [3, 1] 2 1 2 ≤ 2 ∧
    ((∃ k, 1 < k ∧ k ≤ 2 ∧ truncErrOfKeep [3, 1] k ≤ 2) →
      truncErrOfKeep [3, 1] (MPISVDMasterKeptDim [3, 1] 2 1 2) ≤ 2) ∧
    (2 < truncErrOfKeep [3, 1] (MPISVDMasterKeptDim [3, 1] 2 1 2) →
      ∀ k, 1 < k → k ≤ 2 → 2 < truncErrOfKeep [3, 1] k) :=
  C5_svd_truncation [3, 1] 2 1 2
    (by simp [List.sorted_cons]) (by norm_num) (by norm_num)

/-! ## Task scheduling of the expansion fan-in (claim C6)

`MasterTwoSiteFiniteVMPSRightMovingExpand` and
`MasterTwoSiteFiniteVMPSLeftMovingExpand` contain the identical scheduling
block: with `task_size` quantum-number-sector tasks (difficulty = sector
degeneracy) and `slave_size` slaves, each controlling thread `k` first receives
the result of task `k - 1`; when `slave_size < task_size` the remaining task
indices `slave_size .. task_size - 1` are collected by `std::iota`, sorted by
`std::sort` with comparator `task_difficuty[task1] > task_difficuty[task2]`,
and handed out by the dynamic `omp for` loop as slaves become ready (embedded
as the ordered dispatch queue `dynDispatchOrder`; which ready slave receives a
given dispatch is timing-dependent and left abstract); afterwards each busy
slave is sent the finish signal `2 * task_size`. -/

/-- The `arraging_tasks` vector of the expansion fan-in: `std::iota` from
`slave_size`, then sorted descending by task difficulty.  (`std::sort` is
unstable, so only the pairwise descending-difficulty guarantee of the result
is meaningful; the embedding uses insertion sort with the matching total
preorder.) -/
def arragingTasks (task_difficuty : List Nat) (slave_size : Nat) : List Nat :=
  (List.range' slave_size (task_difficuty.length - slave_size)).insertionSort
    (fun t1 t2 => task_difficuty.getD t2 0 ≤ task_difficuty.getD t1 0)

/-- Observable schedule of one expansion fan-in: the initial task received
from each slave, the order in which the remaining tasks are handed to
whichever slave is ready, and which slaves get a finish signal. -/
structure ExpandSchedule where
  initialTask : Nat → Option Nat
  dynDispatchOrder : List Nat
  finishSignal : Nat → Bool

/-- Schedule of `MasterTwoSiteFiniteVMPSRightMovingExpand` as a function of the
task-difficulty list (degeneracies of the split index's quantum-number sectors)
and the slave count `world.size() - 1`. -/
def MasterTwoSiteFiniteVMPSRightMovingExpandSchedule
    (task_difficuty : List Nat) (slave_size : Nat) : ExpandSchedule :=
  let task_size := task_difficuty.length
  if slave_size < task_size then
    { initialTask := fun k => if 1 ≤ k ∧ k ≤ slave_size then some (k - 1) else none,
      dynDispatchOrder := arragingTasks task_difficuty slave_size,
      finishSignal := fun k => decide (1 ≤ k ∧ k ≤ slave_size) }
  else
    { initialTask := fun k => if 1 ≤ k ∧ k ≤ task_size then some (k - 1) else none,
      dynDispatchOrder := [],
      finishSignal := fun k => decide (1 ≤ k ∧ k ≤ task_size) }

/-- Schedule of `MasterTwoSiteFiniteVMPSLeftMovingExpand`; the source
duplicates the scheduling block of the right-moving variant verbatim. -/
def MasterTwoSiteFiniteVMPSLeftMovingExpandSchedule
    (task_difficuty : List Nat) (slave_size : Nat) : ExpandSchedule :=
  let task_size := task_difficuty.length
  if slave_size < task_size then
    { initialTask := fun k => if 1 ≤ k ∧ k ≤ slave_size then some (k - 1) else none,
      dynDispatchOrder := arragingTasks task_difficuty slave_size,
      finishSignal := fun k => decide (1 ≤ k ∧ k ≤ slave_size) }
  else
    { initialTask := fun k => if 1 ≤ k ∧ k ≤ task_size then some (k - 1) else none,
      dynDispatchOrder := [],
      finishSignal := fun k => decide (1 ≤ k ∧ k ≤ task_size) }

theorem arragingTasks_perm (task_difficuty : List Nat) (slave_size : Nat) :
    (arragingTasks task_difficuty slave_size).Perm
      (List.range' slave_size (task_difficuty.length - slave_size)) :=
  List.perm_insertionSort _ _

theorem arragingTasks_sorted (task_difficuty : List Nat) (slave_size : Nat) :
    (arragingTasks task_difficuty slave_size).Sorted
      (fun t1 t2 => task_difficuty.getD t2 0 ≤ task_difficuty.getD t1 0) := by
  haveI : IsTotal Nat (fun t1 t2 => task_difficuty.getD t2 0 ≤ task_difficuty.getD t1 0) :=
    ⟨fun a b => le_total _ _⟩
  haveI : IsTrans Nat (fun t1 t2 => task_difficuty.getD t2 0 ≤ task_difficuty.getD t1 0) :=
    ⟨fun a b c h1 h2 => le_trans h2 h1⟩
  exact List.sorted_insertionSort _ _

/-- C6: in both expansion fan-ins, when `slave_size < task_size` every slave
`k ∈ [1, slave_size]` is first assigned task `k - 1`, and the remaining task
indices `slave_size .. task_size - 1` form the dynamic dispatch queue, a
permutation of exactly those indices sorted in descending order of sector
degeneracy; when `slave_size ≥ task_size` each of the first `task_size` slaves
is assigned exactly its one initial task `k - 1` and receives a finish signal,
and no dynamic dispatch happens at all. -/
theorem C6_expansion_scheduling (task_difficuty : List Nat) (slave_size : Nat) :
    (slave_size < task_difficuty.length →
      (∀ k, 1 ≤ k → k ≤ slave_size →
        (MasterTwoSiteFiniteVMPSRightMovingExpandSchedule task_difficuty
            slave_size).initialTask k = some (k - 1) ∧
        (MasterTwoSiteFiniteVMPSLeftMovingExpandSchedule task_difficuty
            slave_size).initialTask k = some (k - 1)) ∧
      (MasterTwoSiteFiniteVMPSRightMovingExpandSchedule task_difficuty
          slave_size).dynDispatchOrder =
        arragingTasks task_difficuty slave_size ∧
      (MasterTwoSiteFiniteVMPSLeftMovingExpandSchedule task_difficuty
          slave_size).dynDispatchOrder =
        arragingTasks task_difficuty slave_size ∧
      (arragingTasks task_difficuty slave_size).Perm
        (List.range' slave_size (task_difficuty.length - slave_size)) ∧
      (arragingTasks task_difficuty slave_size).Sorted
        (fun t1 t2 => task_difficuty.getD t2 0 ≤ task_difficuty.getD t1 0)) ∧
    (task_difficuty.length ≤ slave_size →
      (∀ k, 1 ≤ k → k ≤ task_difficuty.length →
        (MasterTwoSiteFiniteVMPSRightMovingExpandSchedule task_difficuty
            slave_size).initialTask k = some (k - 1) ∧
        (MasterTwoSiteFiniteVMPSRightMovingExpandSchedule task_difficuty
            slave_size).finishSignal k = true ∧
        (MasterTwoSiteFiniteVMPSLeftMovingExpandSchedule task_difficuty
            slave_size).initialTask k = some (k - 1) ∧
        (MasterTwoSiteFiniteVMPSLeftMovingExpandSchedule task_difficuty
            slave_size).finishSignal k = true) ∧
      (MasterTwoSiteFiniteVMPSRightMovingExpandSchedule task_difficuty
          slave_size).dynDispatchOrder = [] ∧
      (MasterTwoSiteFiniteVMPSLeftMovingExpandSchedule task_difficuty
          slave_size).dynDispatchOrder = []) := by
  constructor
  · intro hlt
    refine ⟨?_, ?_, ?_, arragingTasks_perm _ _, arragingTasks_sorted _ _⟩
    · intro k hk1 hk2
      constructor <;>
        simp [MasterTwoSiteFiniteVMPSRightMovingExpandSchedule,
          MasterTwoSiteFiniteVMPSLeftMovingExpandSchedule, hlt, hk1, hk2]
    · simp [MasterTwoSiteFiniteVMPSRightMovingExpandSchedule, hlt]
    · simp [MasterTwoSiteFiniteVMPSLeftMovingExpandSchedule, hlt]
  · intro hge
    have hnlt : ¬ slave_size < task_difficuty.length := by omega
    refine ⟨?_, ?_, ?_⟩
    · intro k hk1 hk2
      refine ⟨?_, ?_, ?_, ?_⟩ <;>
        simp [MasterTwoSiteFiniteVMPSRightMovingExpandSchedule,
          MasterTwoSiteFiniteVMPSLeftMovingExpandSchedule, hnlt, hk1, hk2]
    · simp [MasterTwoSiteFiniteVMPSRightMovingExpandSchedule, hnlt]
    · simp [MasterTwoSiteFiniteVMPSLeftMovingExpandSchedule, hnlt]

/-- Witness for the C6 theorem at the concrete input
`task_difficuty = [5, 1, 9]`, `slave_size = 2`. -/
theorem C6_expansion_scheduling_witness :
    (2 < ([5, 1, 9] : List Nat).length →
      (∀ k, 1 ≤ k → k ≤ 2 →
        (MasterTwoSiteFiniteVMPSRightMovingExpandSchedule [5, 1, 9]
            2).initialTask k = some (k - 1) ∧
        (MasterTwoSiteFiniteVMPSLeftMovingExpandSchedule [5, 1, 9]
            2).initialTask k = some (k - 1)) ∧
      (MasterTwoSiteFiniteVMPSRightMovingExpandSchedule [5, 1, 9]
          2).dynDispatchOrder = arragingTasks [5, 1, 9] 2 ∧
      (MasterTwoSiteFiniteVMPSLeftMovingExpandSchedule [5, 1, 9]
          2).dynDispatchOrder = arragingTasks [5, 1, 9] 2 ∧
      (arragingTasks [5, 1, 9] 2).Perm
        (List.range' 2 (([5, 1, 9] : List Nat).length - 2)) ∧
      (arragingTasks [5, 1, 9] 2).Sorted
        (fun t1 t2 => ([5, 1, 9] : List Nat).getD t2 0 ≤
          ([5, 1, 9] : List Nat).getD t1 0)) ∧
    (([5, 1, 9] : List Nat).length ≤ 2 →
      (∀ k, 1 ≤ k → k ≤ ([5, 1, 9] : List Nat).length →
        (MasterTwoSiteFiniteVMPSRightMovingExpandSchedule [5, 1, 9]
            2).initialTask k = some (k - 1) ∧
        (MasterTwoSiteFiniteVMPSRightMovingExpandSchedule [5, 1, 9]
            2).finishSignal k = true ∧
        (MasterTwoSiteFiniteVMPSLeftMovingExpandSchedule [5, 1, 9]
            2).initialTask k = some (k - 1) ∧
        (MasterTwoSiteFiniteVMPSLeftMovingExpandSchedule [5, 1, 9]
            2).finishSignal k = true) ∧
      (MasterTwoSiteFiniteVMPSRightMovingExpandSchedule [5, 1, 9]
          2).dynDispatchOrder = [] ∧
      (MasterTwoSiteFiniteVMPSLeftMovingExpandSchedule [5, 1, 9]
          2).dynDispatchOrder = []) :=
  C6_expansion_scheduling [5, 1, 9] 2

/-! ## The TDVP slave receive loop (claims C7 and C8)

`SlaveTwoSiteFiniteTDVP` (two_site_update_finite_tdvp_mpi_impl_slave.h) loops
`while (order != program_final)`, receiving one broadcast order per iteration
and dispatching on it: `program_start`, `lanczos`, `svd`, `growing_left_env`
and `growing_right_env` are handled; the two expansion-contraction orders call
`world.abort(1)`; `program_final` prints and lets the loop condition end the
loop; every other order value hits the `default:` arm, which prints
"doesn't understand the order" and continues the loop. -/

/-- Classification of one iteration of the TDVP slave's `switch (order)`. -/
inductive SlaveStep where
  | continueHandled
  | continueUnknown
  | abortJob
  | finishLoop
  deriving DecidableEq, Repr

/-- Dispatch of the TDVP slave's `switch (order)` arms. -/
def SlaveTwoSiteFiniteTDVPStep : MPS_AlGO_ORDER → SlaveStep
  | MPS_AlGO_ORDER.program_start => SlaveStep.continueHandled
  | MPS_AlGO_ORDER.lanczos => SlaveStep.continueHandled
  | MPS_AlGO_ORDER.svd => SlaveStep.continueHandled
  | MPS_AlGO_ORDER.contract_for_right_moving_expansion => SlaveStep.abortJob
  | MPS_AlGO_ORDER.contract_for_left_moving_expansion => SlaveStep.abortJob
  | MPS_AlGO_ORDER.growing_left_env => SlaveStep.continueHandled
  | MPS_AlGO_ORDER.growing_right_env => SlaveStep.continueHandled
  | MPS_AlGO_ORDER.program_final => SlaveStep.finishLoop
  | _ => SlaveStep.continueUnknown

/-- Outcome of running the slave receive loop against a finite stream of
broadcast orders: the loop either processes a `program_final` (terminating,
with the number of orders consumed), aborts the whole job, or exhausts the
stream while still blocked on the next broadcast receive. -/
inductive SlaveLoopResult where
  | finished (consumed : Nat)
  | aborted (consumed : Nat)
  | blockedOnReceive
  deriving DecidableEq, Repr

/-- Account for one more consumed order in a loop outcome. -/
def bumpConsumed : SlaveLoopResult → SlaveLoopResult
  | SlaveLoopResult.finished n => SlaveLoopResult.finished (n + 1)
  | SlaveLoopResult.aborted n => SlaveLoopResult.aborted (n + 1)
  | SlaveLoopResult.blockedOnReceive => SlaveLoopResult.blockedOnReceive

/-- The TDVP slave receive loop `while (order != program_final)` run against a
finite stream of broadcast orders. -/
def SlaveTwoSiteFiniteTDVP : List MPS_AlGO_ORDER → SlaveLoopResult
  | [] => SlaveLoopResult.blockedOnReceive
  | o :: rest =>
    match SlaveTwoSiteFiniteTDVPStep o with
    | SlaveStep.finishLoop => SlaveLoopResult.finished 1
    | SlaveStep.abortJob => SlaveLoopResult.aborted 1
    | _ => bumpConsumed (SlaveTwoSiteFiniteTDVP rest)

/-- C7: when the TDVP slave receive loop meets one of the two
expansion-contraction orders (after any prefix of non-aborting, non-final
orders), it aborts the whole distributed job at that order instead of skipping
it or continuing the loop — regardless of what follows in the stream. -/
theorem C7_tdvp_slave_aborts_on_expansion
    (pre rest : List MPS_AlGO_ORDER) (o : MPS_AlGO_ORDER)
    (ho : o = MPS_AlGO_ORDER.contract_for_right_moving_expansion ∨
      o = MPS_AlGO_ORDER.contract_for_left_moving_expansion)
    (hpre : ∀ p ∈ pre, SlaveTwoSiteFiniteTDVPStep p ≠ SlaveStep.abortJob ∧
      SlaveTwoSiteFiniteTDVPStep p ≠ SlaveStep.finishLoop) :
    SlaveTwoSiteFiniteTDVP (pre ++ o :: rest) =
      SlaveLoopResult.aborted (pre.length + 1) := by
  induction pre with
  | nil =>
    rcases ho with rfl | rfl <;> rfl
  | cons p ps ih =>
    have hp := hpre p (List.mem_cons_self p ps)
    have hps : ∀ q ∈ ps, SlaveTwoSiteFiniteTDVPStep q ≠ SlaveStep.abortJob ∧
        SlaveTwoSiteFiniteTDVPStep q ≠ SlaveStep.finishLoop :=
      fun q hq => hpre q (List.mem_cons_of_mem p hq)
    rw [List.cons_append, SlaveTwoSiteFiniteTDVP]
    cases hstep : SlaveTwoSiteFiniteTDVPStep p with
    | abortJob => exact absurd hstep hp.1
    | finishLoop => exact absurd hstep hp.2
    | continueHandled =>
      rw [ih hps]
      simp [bumpConsumed, List.length_cons]
    | continueUnknown =>
      rw [ih hps]
      simp [bumpConsumed, List.length_cons]

/-- Witness for the C7 theorem at the concrete input: empty prefix, the
right-moving expansion-contraction order, empty remainder. -/
theorem C7_tdvp_slave_aborts_on_expansion_witness :
    SlaveTwoSiteFiniteTDVP
        [MPS_AlGO_ORDER.contract_for_right_moving_expansion] =
      SlaveLoopResult.aborted (List.length ([] : List MPS_AlGO_ORDER) + 1) :=
  C7_tdvp_slave_aborts_on_expansion []
    [] MPS_AlGO_ORDER.contract_for_right_moving_expansion
    (Or.inl rfl) (by intro p hp; simp at hp)

/-- C8: run against any finite order stream consisting of non-aborting,
non-final orders followed by `program_final`, the TDVP slave receive loop
terminates exactly upon processing the `program_final`, having consumed the
whole stream; an order the `switch` does not recognize makes the loop continue
to the next receive with no other effect; and the unrecognized order values
are exactly the six enum values without a `case` arm. -/
theorem C8_tdvp_slave_liveness (pre : List MPS_AlGO_ORDER)
    (hpre : ∀ p ∈ pre, SlaveTwoSiteFiniteTDVPStep p ≠ SlaveStep.abortJob ∧
      SlaveTwoSiteFiniteTDVPStep p ≠ SlaveStep.finishLoop) :
    SlaveTwoSiteFiniteTDVP (pre ++ [MPS_AlGO_ORDER.program_final]) =
      SlaveLoopResult.finished (pre.length + 1) ∧
    (∀ o rest, SlaveTwoSiteFiniteTDVPStep o = SlaveStep.continueUnknown →
      SlaveTwoSiteFiniteTDVP (o :: rest) =
        bumpConsumed (SlaveTwoSiteFiniteTDVP rest)) ∧
    (∀ o, SlaveTwoSiteFiniteTDVPStep o = SlaveStep.continueUnknown ↔
      (o = MPS_AlGO_ORDER.init_grow_env ∨ o = MPS_AlGO_ORDER.init_grow_env_grow ∨
       o = MPS_AlGO_ORDER.init_grow_env_finish ∨
       o = MPS_AlGO_ORDER.lanczos_mat_vec_dynamic ∨
       o = MPS_AlGO_ORDER.lanczos_mat_vec_static ∨
       o = MPS_AlGO_ORDER.lanczos_finish)) := by
  refine ⟨?_, ?_, ?_⟩
  · induction pre with
    | nil => rfl
    | cons p ps ih =>
      have hp := hpre p (List.mem_cons_self p ps)
      have hps : ∀ q ∈ ps, SlaveTwoSiteFiniteTDVPStep q ≠ SlaveStep.abortJob ∧
          SlaveTwoSiteFiniteTDVPStep q ≠ SlaveStep.finishLoop :=
        fun q hq => hpre q (List.mem_cons_of_mem p hq)
      rw [List.cons_append, SlaveTwoSiteFiniteTDVP]
      cases hstep : SlaveTwoSiteFiniteTDVPStep p with
      | abortJob => exact absurd hstep hp.1
      | finishLoop => exact absurd hstep hp.2
      | continueHandled =>
        rw [ih hps]
        simp [bumpConsumed, List.length_cons]
      | continueUnknown =>
        rw [ih hps]
        simp [bumpConsumed, List.length_cons]
  · intro o rest hunk
    rw [SlaveTwoSiteFiniteTDVP, hunk]
  · intro o
    cases o <;> simp [SlaveTwoSiteFiniteTDVPStep]

/-- Witness for the C8 theorem at the concrete input
`pre = [svd, lanczos_finish]` (a handled and an unrecognized order). -/
theorem C8_tdvp_slave_liveness_witness :
    SlaveTwoSiteFiniteTDVP
        ([MPS_AlGO_ORDER.svd, MPS_AlGO_ORDER.lanczos_finish] ++
          [MPS_AlGO_ORDER.program_final]) =
      SlaveLoopResult.finished
        ([MPS_AlGO_ORDER.svd, MPS_AlGO_ORDER.lanczos_finish].length + 1) ∧
    (∀ o rest, SlaveTwoSiteFiniteTDVPStep o = SlaveStep.continueUnknown →
      SlaveTwoSiteFiniteTDVP (o :: rest) =
        bumpConsumed (SlaveTwoSiteFiniteTDVP rest)) ∧
    (∀ o, SlaveTwoSiteFiniteTDVPStep o = SlaveStep.continueUnknown ↔
      (o = MPS_AlGO_ORDER.init_grow_env ∨ o = MPS_AlGO_ORDER.init_grow_env_grow ∨
       o = MPS_AlGO_ORDER.init_grow_env_finish ∨
       o = MPS_AlGO_ORDER.lanczos_mat_vec_dynamic ∨
       o = MPS_AlGO_ORDER.lanczos_mat_vec_static ∨
       o = MPS_AlGO_ORDER.lanczos_finish)) :=
  C8_tdvp_slave_liveness [MPS_AlGO_ORDER.svd, MPS_AlGO_ORDER.lanczos_finish]
    (by
      intro p hp
      simp only [List.mem_cons, List.not_mem_nil, or_false] at hp
      rcases hp with rfl | rfl <;> simp [SlaveTwoSiteFiniteTDVPStep])

/-! ## MPO generator, `AddTerm` with a zero coefficient (claim C9)

`MPOGenerator::AddTerm` (mpogen_impl.h) checks
`if (coef == TenElemType(0)) { return; }` before converting any label or
touching the finite-state machine.  The generator state is embedded as the
objects registered in the two label convertors plus the paths added to the
finite-state machine; coefficients are embedded as rationals and local
operators as an abstract type with decidable equality. -/

/-- Modelled from the spec and call sites: `LabelConvertor::Convert`
(mpogen/symb_alg/coef_op_alg.h, outside the provided sources) maps an object to
its numeric label, registering the object first if it has not been seen. -/
def LabelConvertorConvert {α : Type} [DecidableEq α] (hash : List α) (x : α) :
    Nat × List α :=
  if x ∈ hash then (hash.indexOf x, hash) else (hash.length, hash ++ [x])

/-- Symbolic operator representation pushed onto a finite-state-machine path:
`OpRepr(coef_label, op_label)` for the leading operator of a term and
`OpRepr(op_label)` (no coefficient label) otherwise. -/
structure OpRepr where
  coefLabel : Option Nat
  opLabel : Nat
  deriving DecidableEq, Repr

/-- State of `MPOGenerator` observable through `AddTerm` and `Gen`: the two
label convertors' registered objects, the finite-state machine's added paths,
and the identity-operator table built by the constructor. -/
structure MPOGenerator (Op : Type) where
  coef_label_convertor_ : List ℚ
  op_label_convertor_ : List Op
  fsm_paths_ : List (Int × Int × List OpRepr)
  id_op_vector_ : List Op

/-- `MPOGenerator::AddTerm(coef, local_ops, local_ops_idxs)` (the most generic
overload, mpogen_impl.h): returns unchanged on a zero coefficient; otherwise
converts the coefficient label, walks the sites from the first to the last
nontrivial index building one `OpRepr` per site (the identity operator on
sites without a local operator), and adds the path to the finite-state
machine. -/
def AddTerm {Op : Type} [DecidableEq Op] [Inhabited Op]
    (g : MPOGenerator Op) (coef : ℚ) (local_ops : List Op)
    (local_ops_idxs : List Int) : MPOGenerator Op :=
  if coef = 0 then g
  else
    let coefConv := LabelConvertorConvert g.coef_label_convertor_ coef
    let coef_label := coefConv.1
    let ntrvl_ops_idxs_head := local_ops_idxs.headD 0
    let ntrvl_ops_idxs_tail := local_ops_idxs.getLastD 0
    let step := fun (st : List OpRepr × List Op) (j : Nat) =>
      let i : Int := ntrvl_ops_idxs_head + j
      if i ∈ local_ops_idxs then
        let local_op_loc := local_ops_idxs.indexOf i
        let opConv := LabelConvertorConvert st.2 (local_ops.getD local_op_loc default)
        if local_op_loc = 0 then
          (st.1 ++ [OpRepr.mk (some coef_label) opConv.1], opConv.2)
        else
          (st.1 ++ [OpRepr.mk none opConv.1], opConv.2)
      else
        let opConv := LabelConvertorConvert st.2 (g.id_op_vector_.getD i.toNat default)
        (st.1 ++ [OpRepr.mk none opConv.1], opConv.2)
    let walked :=
      (List.range (ntrvl_ops_idxs_tail - ntrvl_ops_idxs_head + 1).toNat).foldl
        step ([], g.op_label_convertor_)
    { coef_label_convertor_ := coefConv.2
      op_label_convertor_ := walked.2
      fsm_paths_ := g.fsm_paths_ ++
        [(ntrvl_ops_idxs_head, ntrvl_ops_idxs_tail, walked.1)]
      id_op_vector_ := g.id_op_vector_ }

/-- Apply a sequence of further `AddTerm` calls. -/
def applyAddTerms {Op : Type} [DecidableEq Op] [Inhabited Op]
    (g : MPOGenerator Op) (terms : List (ℚ × List Op × List Int)) :
    MPOGenerator Op :=
  terms.foldl (fun h t => AddTerm h t.1 t.2.1 t.2.2) g

/-- C9: `AddTerm` with a zero coefficient returns immediately with the
generator state unchanged — no finite-state-machine path added, no coefficient
or operator label registered — so any later observation of the generator
(in particular the MPO produced by `Gen()`, here an arbitrary function of the
state, possibly after further `AddTerm` calls) is identical to the run in
which that call never happened. -/
theorem C9_addterm_zero_coef_frame {Op : Type} [DecidableEq Op] [Inhabited Op]
    (g : MPOGenerator Op) (local_ops : List Op) (local_ops_idxs : List Int)
    (rest : List (ℚ × List Op × List Int)) (γ : Type)
    (Gen : MPOGenerator Op → γ) :
    AddTerm g 0 local_ops local_ops_idxs = g ∧
    Gen (applyAddTerms (AddTerm g 0 local_ops local_ops_idxs) rest) =
      Gen (applyAddTerms g rest) := by
  have h0 : AddTerm g 0 local_ops local_ops_idxs = g := by
    rw [AddTerm, if_pos rfl]
  exact ⟨h0, by rw [h0]⟩

/-! ## Memory residency of `CheckAndUpdateBoundaryMPSTensors` (claim C10)

`CheckAndUpdateBoundaryMPSTensors` (two_site_update_finite_vmps_init.h) asserts
`mps.empty()` on entry and on exit.  The embedding tracks the set of
memory-resident MPS site tensors: `LoadTen` inserts a site,
`DumpTen(..., true)` (dump with release) removes it; canonicalization and
combiner contractions touch only already-resident tensors.  The numeric
break tests on tensor shapes (`shape[0]*shape[1] > Dmax` and its mirror) are
data we do not track, so each loop takes its break test as an abstract
predicate of the loop counter. -/

/-- Left-side loop `for(i=0; i<left_middle_site; i++)` of
`CheckAndUpdateBoundaryMPSTensors`, returning the final `left_boundary` and
the resident-site set: each iteration loads site `i + 1`, breaks with
`left_boundary = i` when the shape test `stop i` fires, and sets
`left_boundary = i` on the last iteration. -/
def CheckLeftLoop (stop : Nat → Bool) (left_middle_site : Nat)
    (i lb : Nat) (mem : Finset Nat) : Nat × Finset Nat :=
  if i < left_middle_site then
    if stop i then (i, insert (i + 1) mem)
    else CheckLeftLoop stop left_middle_site (i + 1)
      (if i = left_middle_site - 1 then i else lb) (insert (i + 1) mem)
  else (lb, mem)
termination_by left_middle_site - i
decreasing_by omega

/-- Right-side loop `for(i=N-1; i>right_middle_site; i--)` of
`CheckAndUpdateBoundaryMPSTensors`, returning the final `right_boundary` and
the resident-site set: each iteration loads site `i - 1`, breaks with
`right_boundary = i` when the shape test `stop i` fires, and sets
`right_boundary = i` on the last iteration. -/
def CheckRightLoop (stop : Nat → Bool) (right_middle_site : Nat)
    (i rb : Nat) (mem : Finset Nat) : Nat × Finset Nat :=
  if right_middle_site < i then
    if stop i then (i, insert (i - 1) mem)
    else CheckRightLoop stop right_middle_site (i - 1)
      (if i = right_middle_site + 1 then i else rb) (insert (i - 1) mem)
  else (rb, mem)
termination_by i
decreasing_by omega

/-- The left-side pass: load site 0, run the left loop from `i = 0` with the
parity-dependent `left_middle_site` of the source. -/
def leftBoundaryPass (stopL : Nat → Bool) (N : Nat) (mem0 : Finset Nat) :
    Nat × Finset Nat :=
  CheckLeftLoop stopL (if N % 2 = 0 then N / 2 - 1 else N / 2) 0 0 (insert 0 mem0)

/-- The right-side pass: load site `N - 1`, run the right loop from
`i = N - 1` with `right_middle_site = N / 2` of the source. -/
def rightBoundaryPass (stopR : Nat → Bool) (N : Nat) (mem : Finset Nat) :
    Nat × Finset Nat :=
  CheckRightLoop stopR (N / 2) (N - 1) 0 (insert (N - 1) mem)

/-- Resident-site set left behind by `CheckAndUpdateBoundaryMPSTensors`: the
left pass followed by `for(i=0;i<=left_boundary+1;i++) DumpTen(i, ..., true)`,
then the right pass followed by
`for(i=N-1;i>=right_boundary-1;i--) DumpTen(i, ..., true)`. -/
def CheckAndUpdateBoundaryMPSTensorsMem (N : Nat) (stopL stopR : Nat → Bool)
    (mem0 : Finset Nat) : Finset Nat :=
  let memB := (leftBoundaryPass stopL N mem0).2 \
    Finset.range ((leftBoundaryPass stopL N mem0).1 + 2)
  (rightBoundaryPass stopR N memB).2 \
    Finset.Icc ((rightBoundaryPass stopR N memB).1 - 1) (N - 1)

theorem CheckLeftLoop_resident_subset (stop : Nat → Bool) (lm : Nat) :
    ∀ n i lb mem, lm - i ≤ n → i ≤ lm → mem ⊆ Finset.range (i + 1) →
      (i = lm → lb = lm - 1) →
      (CheckLeftLoop stop lm i lb mem).2 ⊆
        Finset.range ((CheckLeftLoop stop lm i lb mem).1 + 2) := by
  intro n
  induction n with
  | zero =>
    intro i lb mem hn hile hmem hlb
    have hi : i = lm := by omega
    rw [CheckLeftLoop, if_neg (by omega)]
    refine hmem.trans (Finset.range_subset.mpr ?_)
    have := hlb hi
    omega
  | succ n ih =>
    intro i lb mem hn hile hmem hlb
    rw [CheckLeftLoop]
    by_cases hi : i < lm
    · rw [if_pos hi]
      have hmem' : insert (i + 1) mem ⊆ Finset.range (i + 1 + 1) := by
        refine Finset.insert_subset_iff.mpr ⟨?_, ?_⟩
        · exact Finset.mem_range.mpr (by omega)
        · exact hmem.trans (Finset.range_subset.mpr (by omega))
      cases hstop : stop i with
      | true =>
        simpa using hmem'
      | false =>
        simp only [Bool.false_eq_true, if_false]
        refine ih (i + 1) _ _ (by omega) (by omega) hmem' ?_
        intro h1
        rw [if_pos (by omega)]
        omega
    · rw [if_neg hi]
      have hi2 : i = lm := by omega
      refine hmem.trans (Finset.range_subset.mpr ?_)
      have := hlb hi2
      omega

theorem CheckRightLoop_resident_subset (stop : Nat → Bool) (rm M : Nat) :
    ∀ n i rb mem, i - rm ≤ n → rm ≤ i → i ≤ M + 1 → mem ⊆ Finset.Icc i M →
      (i = rm → rb = rm + 1) →
      (CheckRightLoop stop rm i rb mem).2 ⊆
        Finset.Icc ((CheckRightLoop stop rm i rb mem).1 - 1) M := by
  intro n
  induction n with
  | zero =>
    intro i rb mem hn hile hiM hmem hrb
    have hi : i = rm := by omega
    rw [CheckRightLoop, if_neg (by omega)]
    refine hmem.trans (Finset.Icc_subset_Icc ?_ le_rfl)
    have := hrb hi
    omega
  | succ n ih =>
    intro i rb mem hn hile hiM hmem hrb
    rw [CheckRightLoop]
    by_cases hi : rm < i
    · rw [if_pos hi]
      have hmem' : insert (i - 1) mem ⊆ Finset.Icc (i - 1) M := by
        refine Finset.insert_subset_iff.mpr ⟨?_, ?_⟩
        · exact Finset.mem_Icc.mpr (by omega)
        · exact hmem.trans (Finset.Icc_subset_Icc (by omega) le_rfl)
      cases hstop : stop i with
      | true =>
        simpa using hmem'
      | false =>
        simp only [Bool.false_eq_true, if_false]
        refine ih (i - 1) _ _ (by omega) (by omega) (by omega) hmem' ?_
        intro h1
        rw [if_pos (by omega)]
        omega
    · rw [if_neg hi]
      have hi2 : i = rm := by omega
      refine hmem.trans (Finset.Icc_subset_Icc ?_ le_rfl)
      have := hrb hi2
      omega

/-- C10: `CheckAndUpdateBoundaryMPSTensors` preserves the memory-empty state
of the MPS.  Run on an MPS with no site tensor resident (the source's entry
`assert(mps.empty())`), with any outcome of the two shape-driven break tests,
it returns with no site tensor resident: every tensor loaded during the
left-side and right-side passes is dumped back to disk with release before the
function returns (matching the exit `assert(mps.empty())`). -/
theorem C10_boundary_update_preserves_empty (N : Nat) (stopL stopR : Nat → Bool)
    (hN : 3 ≤ N) :
    CheckAndUpdateBoundaryMPSTensorsMem N stopL stopR ∅ = ∅ := by
  have hleft : (leftBoundaryPass stopL N ∅).2 ⊆
      Finset.range ((leftBoundaryPass stopL N ∅).1 + 2) := by
    refine CheckLeftLoop_resident_subset stopL _ _ 0 0 _ le_rfl (Nat.zero_le _) ?_ ?_
    · intro x hx
      simp only [Finset.mem_insert, Finset.not_mem_empty, or_false] at hx
      exact Finset.mem_range.mpr (by omega)
    · intro h
      omega
  have hmemB : (leftBoundaryPass stopL N ∅).2 \
      Finset.range ((leftBoundaryPass stopL N ∅).1 + 2) = ∅ :=
    Finset.sdiff_eq_empty_iff_subset.mpr hleft
  have hright : (rightBoundaryPass stopR N ∅).2 ⊆
      Finset.Icc ((rightBoundaryPass stopR N ∅).1 - 1) (N - 1) := by
    refine CheckRightLoop_resident_subset stopR (N / 2) (N - 1) (N - 1 - N / 2)
      (N - 1) 0 _ le_rfl (by omega) (by omega) ?_ ?_
    · intro x hx
      simp only [Finset.mem_insert, Finset.not_mem_empty, or_false] at hx
      exact Finset.mem_Icc.mpr (by omega)
    · intro h
      omega
  rw [CheckAndUpdateBoundaryMPSTensorsMem]
  simp only [hmemB]
  exact Finset.sdiff_eq_empty_iff_subset.mpr hright

/-- Witness for the C10 theorem at the concrete input `N = 6` with both break
tests never firing. -/
theorem C10_boundary_update_preserves_empty_witness :
    CheckAndUpdateBoundaryMPSTensorsMem 6 (fun _ => false) (fun _ => false) ∅ = ∅ :=
  C10_boundary_update_preserves_empty 6 (fun _ => false) (fun _ => false) (by norm_num)

end MPS2
